import Mathlib

/-!
Shallow embedding of `src/vs/workbench/contrib/notebook/browser/notebookEditor.ts`:
the notebook cell data model, the document mutation performed by
`NotebookEditor.insertEmptyNotebookCell` (JavaScript `Array.prototype.indexOf`
and `Array.prototype.splice` semantics made explicit), the sizing contract of
`NotebookCellListDelegate`, and the listener bookkeeping of the two cell
renderers (`MarkdownCellRenderer`, `CodeCellRenderer`).
-/

namespace NotebookEditorSpec

/-- One notebook cell, the `ICell` record shape used throughout the editor
(fields `cell_type` and `source`).  The extra `id` field models JavaScript
reference identity: distinct cell objects carry distinct ids, and
`Array.prototype.indexOf` (which compares with `===`) is modelled as equality
of this record. -/
structure ICell where
  id : Nat
  cell_type : String
  source : List String
deriving DecidableEq

/-- Helper for `jsIndexOf`: first index of `c` in the list, if present. -/
def jsIndexOfAux (c : ICell) : List ICell → Option Nat
  | [] => none
  | x :: xs => if x = c then some 0 else (jsIndexOfAux c xs).map (· + 1)

/-- JavaScript `cells.indexOf(c)`: the first index of `c`, or `-1` when `c`
is not an element. -/
def jsIndexOf (cells : List ICell) (c : ICell) : Int :=
  match jsIndexOfAux c cells with
  | some i => (i : Int)
  | none => -1

/-- The actual insertion position `Array.prototype.splice` computes from a
possibly negative `start` argument: `max(len + start, 0)` when `start < 0`
(here `Int.toNat` performs the clamping to `0`), otherwise `min(start, len)`. -/
def jsSpliceStart (len : Nat) (start : Int) : Nat :=
  if start < 0 then ((len : Int) + start).toNat else min start.toNat len

/-- JavaScript `cells.splice(start, 0, item)`: insert `item` at the position
computed by `jsSpliceStart`, deleting nothing. -/
def jsSpliceInsert (cells : List ICell) (start : Int) (item : ICell) : List ICell :=
  let s := jsSpliceStart cells.length start
  cells.take s ++ item :: cells.drop s

/-- The `direction` argument of `insertEmptyNotebookCell`. -/
inductive Direction where
  | above
  | below
deriving DecidableEq

/-- The fresh empty code cell `{ source: [], cell_type: 'code' }` allocated at
the top of `NotebookEditor.insertEmptyNotebookCell`; `freshId` stands for the
newly allocated object reference. -/
def newNotebookCell (freshId : Nat) : ICell :=
  { id := freshId, cell_type := "code", source := [] }

/-- Document-model side of `NotebookEditor.insertEmptyNotebookCell`:
`index = cells.indexOf(cell)`, then
`insertIndex = direction === 'above' ? index : index + 1`, then
`cells.splice(insertIndex, 0, newCell)`. -/
def insertEmptyNotebookCell (cells : List ICell) (cell : ICell)
    (direction : Direction) (freshId : Nat) : List ICell :=
  let index := jsIndexOf cells cell
  let insertIndex := if direction = Direction.above then index else index + 1
  jsSpliceInsert cells insertIndex (newNotebookCell freshId)

/-- Template id constant of `MarkdownCellRenderer`. -/
def MarkdownCellRenderer.TEMPLATE_ID : String := "markdown_cell"

/-- Template id constant of `CodeCellRenderer`. -/
def CodeCellRenderer.TEMPLATE_ID : String := "code_cell"

/-- The `NotebookCellListDelegate`, carrying the `_lineHeight` it reads from
the editor configuration at construction time. -/
structure NotebookCellListDelegate where
  _lineHeight : Nat

/-- Method `NotebookCellListDelegate.getHeight`: `100` for markdown cells,
`Math.max(element.source.length + 1, 4) * this._lineHeight + 16` otherwise. -/
def NotebookCellListDelegate.getHeight (d : NotebookCellListDelegate)
    (element : ICell) : Nat :=
  if element.cell_type = "markdown" then 100
  else max (element.source.length + 1) 4 * d._lineHeight + 16

/-- Method `NotebookCellListDelegate.hasDynamicHeight`:
`element.cell_type === 'markdown'`. -/
def NotebookCellListDelegate.hasDynamicHeight (d : NotebookCellListDelegate)
    (element : ICell) : Bool :=
  element.cell_type = "markdown"

/-- Method `NotebookCellListDelegate.getTemplateId`: the markdown template id
for markdown cells, the code template id otherwise. -/
def NotebookCellListDelegate.getTemplateId (d : NotebookCellListDelegate)
    (element : ICell) : String :=
  if element.cell_type = "markdown" then MarkdownCellRenderer.TEMPLATE_ID
  else CodeCellRenderer.TEMPLATE_ID

/-- Association-list lookup, modelling `Map.prototype.get` (first entry whose
key equals `k`). -/
def alookup {α β : Type} [DecidableEq α] (k : α) : List (α × β) → Option β
  | [] => none
  | p :: ps => if p.1 = k then some p.2 else alookup k ps

/-- One live DOM `mousedown` listener, attached by a renderer to the menu
container of row template `tmpl`, and showing the context menu for `cell`
when it fires. -/
structure Listener where
  tmpl : Nat
  cell : ICell
deriving DecidableEq

/-- Listeners currently attached to the menu container of row template `t`. -/
def liveOn (dom : List (Nat × Listener)) (t : Nat) : List (Nat × Listener) :=
  dom.filter (fun p => p.2.tmpl = t)

/-- Listener bookkeeping state of `MarkdownCellRenderer`: `disposables` is its
`Map<HTMLElement, IDisposable>` keyed by menu container (identified by the row
template number), `dom` is the set of attached, not yet disposed, DOM
listeners keyed by a fresh handle id, and `next` is the next fresh handle. -/
structure MdState where
  disposables : List (Nat × Nat)
  dom : List (Nat × Listener)
  next : Nat

/-- Initial `MarkdownCellRenderer` state: empty map, no listeners. -/
def mdInit : MdState := ⟨[], [], 0⟩

/-- Observable effect of one `MarkdownCellRenderer.renderElement` call: the
string handed to the external `marked` renderer, namely
`element.source.join('')`. -/
structure MdRenderEffect where
  markdownInput : String

/-- Method `MarkdownCellRenderer.renderElement`: renders the joined source,
looks up the disposable stored for this menu container, disposes and deletes
it when present, then attaches a fresh listener and records it in the map. -/
def mdRenderElement (s : MdState) (element : ICell) (tmpl : Nat) :
    MdState × MdRenderEffect :=
  let s1 :=
    match alookup tmpl s.disposables with
    | some lid =>
        { s with
          dom := s.dom.filter (fun p => p.1 ≠ lid),
          disposables := s.disposables.filter (fun p => p.1 ≠ tmpl) }
    | none => s
  ({ disposables := (tmpl, s1.next) :: s1.disposables,
     dom := (s1.next, ⟨tmpl, element⟩) :: s1.dom,
     next := s1.next + 1 },
   { markdownInput := String.join element.source })

/-- Run a sequence of `MarkdownCellRenderer.renderElement` calls (cell and
row-template argument each) from the initial state. -/
def mdRun (evs : List (ICell × Nat)) : MdState :=
  evs.foldl (fun s e => (mdRenderElement s e.1 e.2).1) mdInit

/-- Listener bookkeeping state of `CodeCellRenderer`: `disposables` is its
`Map<ICell, IDisposable>` keyed by the rendered cell itself. -/
structure CodeState where
  disposables : List (ICell × Nat)
  dom : List (Nat × Listener)
  next : Nat

/-- Initial `CodeCellRenderer` state: empty map, no listeners. -/
def codeInit : CodeState := ⟨[], [], 0⟩

/-- Observable effect of one `CodeCellRenderer.renderElement` call: the text
model bound to the embedded editor (`element.source.join('')`), the virtual
resource name, and the dimensions passed to `editor.layout`. -/
structure CodeRenderEffect where
  modelText : String
  resource : String
  layoutWidth : Nat
  layoutHeight : Nat

/-- Method `CodeCellRenderer.renderElement`: reads the container width,
computes `totalHeight = Math.max(lineNum + 1, 4) * 21`, creates a model from
the joined source under a unique resource, lays the editor out to
`{width, height: totalHeight}`, attaches a fresh menu listener, and stores it
in the per-cell map (`Map.prototype.set` replaces the previous value for the
same cell without disposing it; no listener for a previous occupant of the
template is disposed here). -/
def codeRenderElement (s : CodeState) (element : ICell) (index : Nat)
    (tmpl : Nat) (clientWidth : Nat) (now : Nat) :
    CodeState × CodeRenderEffect :=
  let width := clientWidth
  let lineNum := element.source.length
  let totalHeight := max (lineNum + 1) 4 * 21
  ({ disposables := (element, s.next) :: s.disposables.filter (fun p => p.1 ≠ element),
     dom := (s.next, ⟨tmpl, element⟩) :: s.dom,
     next := s.next + 1 },
   { modelText := String.join element.source,
     resource := "notebookcell-" ++ toString index ++ "-" ++ toString now ++ ".py",
     layoutWidth := width,
     layoutHeight := totalHeight })

/-- Method `CodeCellRenderer.disposeElement`: looks up the listener stored for
this cell, disposes it and deletes the map entry when present. -/
def codeDisposeElement (s : CodeState) (element : ICell) : CodeState :=
  match alookup element s.disposables with
  | some lid =>
      { s with
        dom := s.dom.filter (fun p => p.1 ≠ lid),
        disposables := s.disposables.filter (fun p => p.1 ≠ element) }
  | none => s

/-- Modelled from the spec: `WorkbenchList.splice(startIndex, deleteCount,
itemsToInsert)` of section 4.4 is host List View code outside this source
file; per the spec the List View reflects a document mutation by splicing the
inserted items in at the same index, so it is given the splice semantics of
the document sequence. -/
def listViewSplice (rows : List ICell) (start : Int) (items : List ICell) :
    List ICell :=
  let s := jsSpliceStart rows.length start
  rows.take s ++ items ++ rows.drop s

/-- State owned by `NotebookEditor`: the document model cell sequence and the
List View row sequence. -/
structure NotebookEditorState where
  cells : List ICell
  rows : List ICell

/-- Tail of `NotebookEditor.setInput` once the model resolves: the editor
keeps the model and splices the full cell sequence into the (empty) List
View with `this.list.splice(0, 0, model.getNookbook().cells)`. -/
def setInputState (modelCells : List ICell) : NotebookEditorState :=
  { cells := modelCells, rows := listViewSplice [] 0 modelCells }

/-- Method `NotebookEditor.insertEmptyNotebookCell`, both effects: the
document splice and the mirrored List View splice at the same index. -/
def editorInsertEmptyNotebookCell (s : NotebookEditorState) (cell : ICell)
    (direction : Direction) (freshId : Nat) : NotebookEditorState :=
  let newCell := newNotebookCell freshId
  let index := jsIndexOf s.cells cell
  let insertIndex := if direction = Direction.above then index else index + 1
  { cells := jsSpliceInsert s.cells insertIndex newCell,
    rows := listViewSplice s.rows insertIndex [newCell] }

/-- Run a sequence of `insertEmptyNotebookCell` operations (anchor cell,
direction, fresh object id each) on the editor state. -/
def runEditorInserts (s : NotebookEditorState)
    (ops : List (ICell × Direction × Nat)) : NotebookEditorState :=
  ops.foldl (fun st op => editorInsertEmptyNotebookCell st op.1 op.2.1 op.2.2) s

theorem jsIndexOfAux_some {c : ICell} {cells : List ICell} {i : Nat}
    (h : jsIndexOfAux c cells = some i) :
    i < cells.length ∧ cells[i]? = some c := by
  induction cells generalizing i with
  | nil => simp [jsIndexOfAux] at h
  | cons x xs ih =>
    rw [jsIndexOfAux] at h
    by_cases hx : x = c
    · rw [if_pos hx] at h
      obtain rfl : (0 : Nat) = i := by simpa using h
      simp [hx]
    · rw [if_neg hx, Option.map_eq_some'] at h
      obtain ⟨j, hj, rfl⟩ := h
      obtain ⟨h1, h2⟩ := ih hj
      exact ⟨by simpa using Nat.succ_lt_succ h1, by simpa using h2⟩

theorem jsIndexOf_nat {cells : List ICell} {c : ICell} {i : Nat}
    (h : jsIndexOf cells c = (i : Int)) : jsIndexOfAux c cells = some i := by
  unfold jsIndexOf at h
  cases haux : jsIndexOfAux c cells with
  | none =>
    rw [haux] at h
    exfalso
    have hneg : (-1 : Int) = (i : Int) := h
    omega
  | some j =>
    rw [haux] at h
    have hcast : (j : Int) = (i : Int) := h
    obtain rfl : j = i := by exact_mod_cast hcast
    rfl

theorem jsSpliceStart_le (len : Nat) (start : Int) : jsSpliceStart len start ≤ len := by
  unfold jsSpliceStart
  split
  · omega
  · omega

theorem jsSpliceInsert_nat (cells : List ICell) (i : Nat) (h : i ≤ cells.length)
    (item : ICell) :
    jsSpliceInsert cells (i : Int) item = cells.take i ++ item :: cells.drop i := by
  have hs : jsSpliceStart cells.length (i : Int) = i := by
    unfold jsSpliceStart
    rw [if_neg (by omega)]
    omega
  unfold jsSpliceInsert
  rw [hs]

theorem length_jsSpliceInsert (cells : List ICell) (start : Int) (item : ICell) :
    (jsSpliceInsert cells start item).length = cells.length + 1 := by
  have h := jsSpliceStart_le cells.length start
  simp [jsSpliceInsert]
  omega

theorem getElem?_insert_lt {α : Type} (l : List α) (item : α) (i j : Nat)
    (hi : i ≤ l.length) (hj : j < i) :
    (l.take i ++ item :: l.drop i)[j]? = l[j]? := by
  have hlen : (l.take i).length = i := by simp; omega
  rw [List.getElem?_append_left (by omega)]
  exact List.getElem?_take_of_lt hj

theorem getElem?_insert_self {α : Type} (l : List α) (item : α) (i : Nat)
    (hi : i ≤ l.length) :
    (l.take i ++ item :: l.drop i)[i]? = some item := by
  have hlen : (l.take i).length = i := by simp; omega
  rw [List.getElem?_append_right (by omega), hlen]
  simp

theorem getElem?_insert_shift {α : Type} (l : List α) (item : α) (i j : Nat)
    (hi : i ≤ l.length) (hj : i ≤ j) :
    (l.take i ++ item :: l.drop i)[j + 1]? = l[j]? := by
  have hlen : (l.take i).length = i := by simp; omega
  rw [List.getElem?_append_right (by omega), hlen]
  have hsub : j + 1 - i = (j - i) + 1 := by omega
  rw [hsub, List.getElem?_cons_succ, List.getElem?_drop]
  congr 1
  omega

/-- C1: when the anchor cell sits at index `i` of the document, insertion
`above` places the new empty code cell at index `i` and moves the former
occupant of `i` (and everything after it) up by one, while insertion `below`
places the new cell at index `i + 1` and shifts all subsequent cells by
one. -/
theorem C1_insert_at_anchor (cells : List ICell) (c : ICell) (i : Nat)
    (freshId : Nat) (hi : jsIndexOf cells c = (i : Int)) :
    (newNotebookCell freshId).cell_type = "code" ∧
    (newNotebookCell freshId).source = [] ∧
    (insertEmptyNotebookCell cells c Direction.above freshId)[i]?
      = some (newNotebookCell freshId) ∧
    (insertEmptyNotebookCell cells c Direction.above freshId)[i + 1]?
      = cells[i]? ∧
    (∀ j, j < i →
      (insertEmptyNotebookCell cells c Direction.above freshId)[j]?
        = cells[j]?) ∧
    (∀ j, i ≤ j →
      (insertEmptyNotebookCell cells c Direction.above freshId)[j + 1]?
        = cells[j]?) ∧
    (insertEmptyNotebookCell cells c Direction.below freshId)[i + 1]?
      = some (newNotebookCell freshId) ∧
    (∀ j, j ≤ i →
      (insertEmptyNotebookCell cells c Direction.below freshId)[j]?
        = cells[j]?) ∧
    (∀ j, i < j →
      (insertEmptyNotebookCell cells c Direction.below freshId)[j + 1]?
        = cells[j]?) := by
  have haux := jsIndexOf_nat hi
  have hlt : i < cells.length := (jsIndexOfAux_some haux).1
  have ea : insertEmptyNotebookCell cells c Direction.above freshId
      = jsSpliceInsert cells (jsIndexOf cells c) (newNotebookCell freshId) := rfl
  have eb : insertEmptyNotebookCell cells c Direction.below freshId
      = jsSpliceInsert cells (jsIndexOf cells c + 1) (newNotebookCell freshId) := rfl
  have hra : insertEmptyNotebookCell cells c Direction.above freshId
      = cells.take i ++ newNotebookCell freshId :: cells.drop i := by
    rw [ea, hi]
    exact jsSpliceInsert_nat cells i (le_of_lt hlt) _
  have hrb : insertEmptyNotebookCell cells c Direction.below freshId
      = cells.take (i + 1) ++ newNotebookCell freshId :: cells.drop (i + 1) := by
    rw [eb, hi]
    have hcast : (i : Int) + 1 = ((i + 1 : Nat) : Int) := by push_cast; ring
    rw [hcast]
    exact jsSpliceInsert_nat cells (i + 1) hlt _
  refine ⟨rfl, rfl, ?_, ?_, ?_, ?_, ?_, ?_, ?_⟩
  · rw [hra]; exact getElem?_insert_self cells _ i (le_of_lt hlt)
  · rw [hra]; exact getElem?_insert_shift cells _ i i (le_of_lt hlt) le_rfl
  · intro j hj; rw [hra]; exact getElem?_insert_lt cells _ i j (le_of_lt hlt) hj
  · intro j hj; rw [hra]; exact getElem?_insert_shift cells _ i j (le_of_lt hlt) hj
  · rw [hrb]; exact getElem?_insert_self cells _ (i + 1) hlt
  · intro j hj; rw [hrb]
    exact getElem?_insert_lt cells _ (i + 1) j hlt (by omega)
  · intro j hj; rw [hrb]
    exact getElem?_insert_shift cells _ (i + 1) j hlt (by omega)

theorem C1_insert_at_anchor_witness :
    jsIndexOf [(⟨0, "code", ["a"]⟩ : ICell), ⟨1, "markdown", ["b"]⟩, ⟨2, "code", ["c"]⟩]
        (⟨1, "markdown", ["b"]⟩ : ICell) = ((1 : Nat) : Int) ∧
    (insertEmptyNotebookCell
        [(⟨0, "code", ["a"]⟩ : ICell), ⟨1, "markdown", ["b"]⟩, ⟨2, "code", ["c"]⟩]
        (⟨1, "markdown", ["b"]⟩ : ICell) Direction.above 9)[1]?
      = some (newNotebookCell 9) :=
  ⟨by decide,
   (C1_insert_at_anchor
      [(⟨0, "code", ["a"]⟩ : ICell), ⟨1, "markdown", ["b"]⟩, ⟨2, "code", ["c"]⟩]
      (⟨1, "markdown", ["b"]⟩ : ICell) 1 9 (by decide)).2.2.1⟩

/-- C2 counterexample: with a one-cell document and an anchor cell that is not
in the document, `insertEmptyNotebookCell` is not a no-op in either
direction. -/
theorem C2_counterexample :
    jsIndexOf [(⟨0, "code", ["x"]⟩ : ICell)] ⟨1, "code", []⟩ = -1 ∧
    insertEmptyNotebookCell [(⟨0, "code", ["x"]⟩ : ICell)] ⟨1, "code", []⟩
        Direction.below 2 ≠ [(⟨0, "code", ["x"]⟩ : ICell)] ∧
    insertEmptyNotebookCell [(⟨0, "code", ["x"]⟩ : ICell)] ⟨1, "code", []⟩
        Direction.above 2 ≠ [(⟨0, "code", ["x"]⟩ : ICell)] := by
  decide

/-- C2 amended: when the anchor cell is absent (`indexOf` yields `-1`),
`insertEmptyNotebookCell` is not a no-op: for both directions the document
sequence changes, growing by exactly one cell. -/
theorem C2_amended_mutates (cells : List ICell) (c : ICell) (d : Direction)
    (freshId : Nat) (h : jsIndexOf cells c = -1) :
    (insertEmptyNotebookCell cells c d freshId).length = cells.length + 1 ∧
    insertEmptyNotebookCell cells c d freshId ≠ cells := by
  have h1 : (insertEmptyNotebookCell cells c d freshId).length = cells.length + 1 :=
    length_jsSpliceInsert cells _ _
  refine ⟨h1, ?_⟩
  intro hEq
  rw [hEq] at h1
  omega

theorem C2_amended_mutates_witness :
    jsIndexOf [(⟨0, "code", ["x"]⟩ : ICell)] ⟨1, "code", []⟩ = -1 ∧
    (insertEmptyNotebookCell [(⟨0, "code", ["x"]⟩ : ICell)] ⟨1, "code", []⟩
        Direction.below 2).length = 2 :=
  ⟨by decide,
   (C2_amended_mutates [(⟨0, "code", ["x"]⟩ : ICell)] ⟨1, "code", []⟩
      Direction.below 2 (by decide)).1⟩

/-- C9: with an absent anchor (`indexOf` yields `-1`) the document is still
mutated: direction `below` splices at `0`, putting the new empty code cell at
the front; direction `above` splices at `-1`, which JavaScript resolves to
`length - 1`, inserting the new cell immediately before the last existing
cell (index `0` when the sequence is empty). -/
theorem C9_absent_anchor (cells : List ICell) (c : ICell) (freshId : Nat)
    (h : jsIndexOf cells c = -1) :
    jsSpliceStart cells.length (-1) = cells.length - 1 ∧
    insertEmptyNotebookCell cells c Direction.below freshId
      = newNotebookCell freshId :: cells ∧
    insertEmptyNotebookCell cells c Direction.above freshId
      = cells.take (cells.length - 1)
          ++ newNotebookCell freshId :: cells.drop (cells.length - 1) := by
  have hs : jsSpliceStart cells.length (-1) = cells.length - 1 := by
    unfold jsSpliceStart
    rw [if_pos (by omega)]
    omega
  have ea : insertEmptyNotebookCell cells c Direction.above freshId
      = jsSpliceInsert cells (jsIndexOf cells c) (newNotebookCell freshId) := rfl
  have eb : insertEmptyNotebookCell cells c Direction.below freshId
      = jsSpliceInsert cells (jsIndexOf cells c + 1) (newNotebookCell freshId) := rfl
  refine ⟨hs, ?_, ?_⟩
  · rw [eb, h]
    have hcast : (-1 : Int) + 1 = ((0 : Nat) : Int) := by norm_num
    rw [hcast, jsSpliceInsert_nat cells 0 (Nat.zero_le _)]
    simp
  · rw [ea, h]
    show cells.take (jsSpliceStart cells.length (-1))
        ++ newNotebookCell freshId :: cells.drop (jsSpliceStart cells.length (-1)) = _
    rw [hs]

theorem C9_absent_anchor_witness :
    jsIndexOf [(⟨0, "code", ["x"]⟩ : ICell), ⟨1, "markdown", ["y"]⟩]
        ⟨7, "code", []⟩ = -1 ∧
    insertEmptyNotebookCell [(⟨0, "code", ["x"]⟩ : ICell), ⟨1, "markdown", ["y"]⟩]
        ⟨7, "code", []⟩ Direction.below 9
      = newNotebookCell 9 :: [(⟨0, "code", ["x"]⟩ : ICell), ⟨1, "markdown", ["y"]⟩] :=
  ⟨by decide,
   (C9_absent_anchor [(⟨0, "code", ["x"]⟩ : ICell), ⟨1, "markdown", ["y"]⟩]
      ⟨7, "code", []⟩ 9 (by decide)).2.1⟩

/-- C4: `getHeight` returns exactly `max(n + 1, 4) * lineHeight + 16` for a
code cell with `n` source lines, and the fixed placeholder `100`, independent
of the source, for a markdown cell. -/
theorem C4_row_heights (d : NotebookCellListDelegate) (cell : ICell) :
    (cell.cell_type = "code" →
      d.getHeight cell = max (cell.source.length + 1) 4 * d._lineHeight + 16) ∧
    (cell.cell_type = "markdown" → d.getHeight cell = 100) := by
  constructor
  · intro h
    unfold NotebookCellListDelegate.getHeight
    rw [if_neg (show ¬cell.cell_type = "markdown" by rw [h]; decide)]
  · intro h
    unfold NotebookCellListDelegate.getHeight
    rw [if_pos h]

theorem C4_row_heights_witness :
    NotebookCellListDelegate.getHeight ⟨21⟩ ⟨0, "code", ["a", "b", "c", "d", "e"]⟩ = 142 ∧
    NotebookCellListDelegate.getHeight ⟨21⟩ ⟨1, "markdown", ["# t"]⟩ = 100 :=
  ⟨((C4_row_heights ⟨21⟩ ⟨0, "code", ["a", "b", "c", "d", "e"]⟩).1 rfl).trans (by decide),
   (C4_row_heights ⟨21⟩ ⟨1, "markdown", ["# t"]⟩).2 rfl⟩

/-- C6: `hasDynamicHeight` is true exactly for markdown cells. -/
theorem C6_hasDynamicHeight_iff (d : NotebookCellListDelegate) (cell : ICell) :
    d.hasDynamicHeight cell = true ↔ cell.cell_type = "markdown" := by
  simp [NotebookCellListDelegate.hasDynamicHeight]

/-- C7 counterexample: code-cell height is not strictly monotonic in the line
count: with `lineHeight = 21`, a cell with `0` lines and a cell with `1` line
both sit in the 4-line minimum and get equal heights. -/
theorem C7_counterexample :
    (⟨0, "code", []⟩ : ICell).source.length
        < (⟨1, "code", ["x"]⟩ : ICell).source.length ∧
    0 < (⟨21⟩ : NotebookCellListDelegate)._lineHeight ∧
    (⟨0, "code", []⟩ : ICell).cell_type = "code" ∧
    (⟨1, "code", ["x"]⟩ : ICell).cell_type = "code" ∧
    ¬(NotebookCellListDelegate.getHeight ⟨21⟩ ⟨0, "code", []⟩
        < NotebookCellListDelegate.getHeight ⟨21⟩ ⟨1, "code", ["x"]⟩) := by
  decide

/-- C7 amended: for fixed positive `lineHeight`, code-cell height is
monotonic non-decreasing in the number of source lines, and strictly
increasing as soon as the smaller cell has at least `3` lines (so the 4-line
minimum no longer masks the difference). -/
theorem C7_height_monotone (d : NotebookCellListDelegate) (c1 c2 : ICell)
    (h1 : c1.cell_type = "code") (h2 : c2.cell_type = "code") :
    (c1.source.length ≤ c2.source.length → d.getHeight c1 ≤ d.getHeight c2) ∧
    (0 < d._lineHeight → 3 ≤ c1.source.length →
      c1.source.length < c2.source.length → d.getHeight c1 < d.getHeight c2) := by
  have e1 : d.getHeight c1 = max (c1.source.length + 1) 4 * d._lineHeight + 16 := by
    unfold NotebookCellListDelegate.getHeight
    rw [if_neg (show ¬c1.cell_type = "markdown" by rw [h1]; decide)]
  have e2 : d.getHeight c2 = max (c2.source.length + 1) 4 * d._lineHeight + 16 := by
    unfold NotebookCellListDelegate.getHeight
    rw [if_neg (show ¬c2.cell_type = "markdown" by rw [h2]; decide)]
  constructor
  · intro hle
    rw [e1, e2]
    have hmax : max (c1.source.length + 1) 4 ≤ max (c2.source.length + 1) 4 := by omega
    exact Nat.add_le_add_right (Nat.mul_le_mul_right _ hmax) 16
  · intro hpos h3 hlt
    rw [e1, e2]
    have hm1 : max (c1.source.length + 1) 4 = c1.source.length + 1 := by omega
    have hm2 : max (c2.source.length + 1) 4 = c2.source.length + 1 := by omega
    rw [hm1, hm2]
    exact Nat.add_lt_add_right
      (mul_lt_mul_of_pos_right (by omega : c1.source.length + 1 < c2.source.length + 1) hpos) 16

theorem C7_height_monotone_witness :
    NotebookCellListDelegate.getHeight ⟨21⟩ ⟨0, "code", ["a", "b", "c"]⟩
      ≤ NotebookCellListDelegate.getHeight ⟨21⟩ ⟨1, "code", ["a", "b", "c", "d", "e"]⟩ ∧
    NotebookCellListDelegate.getHeight ⟨21⟩ ⟨0, "code", ["a", "b", "c"]⟩
      < NotebookCellListDelegate.getHeight ⟨21⟩ ⟨1, "code", ["a", "b", "c", "d", "e"]⟩ :=
  ⟨(C7_height_monotone ⟨21⟩ ⟨0, "code", ["a", "b", "c"]⟩
      ⟨1, "code", ["a", "b", "c", "d", "e"]⟩ rfl rfl).1 (by decide),
   (C7_height_monotone ⟨21⟩ ⟨0, "code", ["a", "b", "c"]⟩
      ⟨1, "code", ["a", "b", "c", "d", "e"]⟩ rfl rfl).2 (by decide) (by decide) (by decide)⟩

/-- C8: `CodeCellRenderer.renderElement` lays the embedded editor out to the
height `max(n + 1, 4) * 21` pixels for a cell with `n` source lines, and to
the width read from the live container. -/
theorem C8_editor_layout (s : CodeState) (element : ICell)
    (index tmpl clientWidth now : Nat) :
    (codeRenderElement s element index tmpl clientWidth now).2.layoutHeight
      = max (element.source.length + 1) 4 * 21 ∧
    (codeRenderElement s element index tmpl clientWidth now).2.layoutWidth
      = clientWidth :=
  ⟨rfl, rfl⟩

/-- C10: the delegate hands out the markdown template id exactly when
`hasDynamicHeight` is true, and every cell whose `cell_type` is not
`"markdown"` (not only the literal `"code"`) uniformly gets the code template
id, the code height formula, and `hasDynamicHeight = false`. -/
theorem C10_delegate_uniform (d : NotebookCellListDelegate) (cell : ICell) :
    (d.getTemplateId cell = MarkdownCellRenderer.TEMPLATE_ID
      ↔ d.hasDynamicHeight cell = true) ∧
    (cell.cell_type ≠ "markdown" →
      d.getTemplateId cell = CodeCellRenderer.TEMPLATE_ID ∧
      d.getHeight cell = max (cell.source.length + 1) 4 * d._lineHeight + 16 ∧
      d.hasDynamicHeight cell = false) := by
  by_cases h : cell.cell_type = "markdown" <;>
    simp [NotebookCellListDelegate.getTemplateId,
      NotebookCellListDelegate.hasDynamicHeight, NotebookCellListDelegate.getHeight,
      MarkdownCellRenderer.TEMPLATE_ID, CodeCellRenderer.TEMPLATE_ID, h]

theorem C10_delegate_uniform_witness :
    NotebookCellListDelegate.getTemplateId ⟨21⟩ ⟨0, "raw", ["z"]⟩
      = CodeCellRenderer.TEMPLATE_ID ∧
    NotebookCellListDelegate.hasDynamicHeight ⟨21⟩ ⟨0, "raw", ["z"]⟩ = false :=
  ⟨((C10_delegate_uniform ⟨21⟩ ⟨0, "raw", ["z"]⟩).2 (by decide)).1,
   ((C10_delegate_uniform ⟨21⟩ ⟨0, "raw", ["z"]⟩).2 (by decide)).2.2⟩

theorem listViewSplice_singleton (rows : List ICell) (start : Int) (item : ICell) :
    listViewSplice rows start [item] = jsSpliceInsert rows start item := by
  simp [listViewSplice, jsSpliceInsert]

theorem editorInsert_preserves (s : NotebookEditorState) (cell : ICell)
    (direction : Direction) (freshId : Nat) (h : s.rows = s.cells) :
    (editorInsertEmptyNotebookCell s cell direction freshId).rows
      = (editorInsertEmptyNotebookCell s cell direction freshId).cells := by
  show listViewSplice s.rows
      (if direction = Direction.above then jsIndexOf s.cells cell
       else jsIndexOf s.cells cell + 1) [newNotebookCell freshId]
    = jsSpliceInsert s.cells
      (if direction = Direction.above then jsIndexOf s.cells cell
       else jsIndexOf s.cells cell + 1) (newNotebookCell freshId)
  rw [h, listViewSplice_singleton]

theorem runEditorInserts_preserves (ops : List (ICell × Direction × Nat)) :
    ∀ s : NotebookEditorState, s.rows = s.cells →
      (runEditorInserts s ops).rows = (runEditorInserts s ops).cells := by
  induction ops with
  | nil => intro s h; exact h
  | cons op ops ih =>
    intro s h
    exact ih _ (editorInsert_preserves s op.1 op.2.1 op.2.2 h)

/-- C3: starting from `setInput` (which splices the full cell sequence into
the empty List View), every `insertEmptyNotebookCell` mirrors the same
single-item splice into the document model and the List View, so after any
sequence of inserts the two sequences are identical. -/
theorem C3_lockstep (modelCells : List ICell) (ops : List (ICell × Direction × Nat)) :
    (runEditorInserts (setInputState modelCells) ops).rows
      = (runEditorInserts (setInputState modelCells) ops).cells := by
  apply runEditorInserts_preserves
  show listViewSplice [] 0 modelCells = modelCells
  simp [listViewSplice, jsSpliceStart]

/-- C5 counterexample: two `CodeCellRenderer.renderElement` calls on the same
row template with different cells and no intervening `disposeElement` leave
two live listeners on that row, and the stale listener of the first cell is
still attached. -/
theorem C5_counterexample :
    ((⟨0, "code", ["a"]⟩ : ICell) ≠ (⟨1, "code", ["b"]⟩ : ICell)) ∧
    (liveOn (codeRenderElement (codeRenderElement codeInit ⟨0, "code", ["a"]⟩ 0 0 100 0).1
        ⟨1, "code", ["b"]⟩ 0 0 100 0).1.dom 0).length = 2 ∧
    (liveOn (codeRenderElement (codeRenderElement codeInit ⟨0, "code", ["a"]⟩ 0 0 100 0).1
        ⟨1, "code", ["b"]⟩ 0 0 100 0).1.dom 0).map (fun p => p.2.cell)
      = [⟨1, "code", ["b"]⟩, ⟨0, "code", ["a"]⟩] := by
  decide

theorem alookup_filter_ne {α β : Type} [DecidableEq α] (k t : α) (hk : k ≠ t)
    (l : List (α × β)) :
    alookup k (l.filter (fun p => p.1 ≠ t)) = alookup k l := by
  induction l with
  | nil => rfl
  | cons p ps ih =>
    by_cases hp : p.1 = t
    · rw [List.filter_cons_of_neg (by simp [hp])]
      rw [ih, alookup, if_neg (fun hh => hk (by rw [← hh]; exact hp))]
    · rw [List.filter_cons_of_pos (by simp [hp])]
      rw [alookup, alookup]
      by_cases hpk : p.1 = k
      · rw [if_pos hpk, if_pos hpk]
      · rw [if_neg hpk, if_neg hpk, ih]

/-- Invariant of the markdown renderer's listener bookkeeping: every live
listener has a handle below the fresh counter, handles are pairwise distinct,
and every live listener is the one the `disposables` map records for its row
template. -/
def MdInv (s : MdState) : Prop :=
  (∀ p ∈ s.dom, p.1 < s.next) ∧
  (s.dom.map Prod.fst).Nodup ∧
  (∀ p ∈ s.dom, alookup p.2.tmpl s.disposables = some p.1)

theorem mdInv_init : MdInv mdInit := by
  refine ⟨?_, ?_, ?_⟩ <;> simp [mdInit]

theorem mdInv_render (s : MdState) (c : ICell) (t : Nat) (h : MdInv s) :
    MdInv (mdRenderElement s c t).1 := by
  obtain ⟨hb, hnd, htr⟩ := h
  unfold mdRenderElement
  cases hal : alookup t s.disposables with
  | some lid =>
    refine ⟨?_, ?_, ?_⟩
    · intro p hp
      rcases List.mem_cons.mp hp with hp | hp
      · subst hp; simp
      · have := hb p (List.mem_of_mem_filter hp)
        simp only []
        omega
    · simp only [List.map_cons]
      refine List.Nodup.cons ?_ (hnd.sublist (List.Sublist.map _ (List.filter_sublist _)))
      intro hmem
      obtain ⟨q, hq, hq1⟩ := List.mem_map.mp hmem
      have := hb q (List.mem_of_mem_filter hq)
      omega
    · intro p hp
      rcases List.mem_cons.mp hp with hp | hp
      · subst hp; simp [alookup]
      · have hmem := List.mem_of_mem_filter hp
        have hne_lid : p.1 ≠ lid := by
          have := (List.mem_filter.mp hp).2
          simpa using this
        have htrp := htr p hmem
        have htne : p.2.tmpl ≠ t := by
          intro he
          rw [he, hal] at htrp
          exact hne_lid (Option.some.inj htrp).symm
        show alookup p.2.tmpl ((t, s.next) :: _) = some p.1
        rw [alookup, if_neg (fun hh => htne hh.symm)]
        rw [alookup_filter_ne _ _ htne]
        exact htrp
  | none =>
    refine ⟨?_, ?_, ?_⟩
    · intro p hp
      rcases List.mem_cons.mp hp with hp | hp
      · subst hp; simp
      · have := hb p hp
        simp only []
        omega
    · simp only [List.map_cons]
      refine List.Nodup.cons ?_ hnd
      intro hmem
      obtain ⟨q, hq, hq1⟩ := List.mem_map.mp hmem
      have := hb q hq
      omega
    · intro p hp
      rcases List.mem_cons.mp hp with hp | hp
      · subst hp; simp [alookup]
      · have htrp := htr p hp
        have htne : p.2.tmpl ≠ t := by
          intro he
          rw [he, hal] at htrp
          cases htrp
        show alookup p.2.tmpl ((t, s.next) :: _) = some p.1
        rw [alookup, if_neg (fun hh => htne hh.symm)]
        exact htrp

theorem mdInv_run (evs : List (ICell × Nat)) : MdInv (mdRun evs) := by
  suffices h : ∀ s, MdInv s →
      MdInv (evs.foldl (fun s e => (mdRenderElement s e.1 e.2).1) s) by
    exact h mdInit mdInv_init
  induction evs with
  | nil => intro s hs; exact hs
  | cons e evs ih =>
    intro s hs
    exact ih _ (mdInv_render s e.1 e.2 hs)

theorem mdInv_liveOn_le_one (s : MdState) (h : MdInv s) (t : Nat) :
    (liveOn s.dom t).length ≤ 1 := by
  obtain ⟨hb, hnd, htr⟩ := h
  cases hL : liveOn s.dom t with
  | nil => simp
  | cons a tl =>
    cases tl with
    | nil => simp
    | cons b tl2 =>
      exfalso
      have ha : a ∈ liveOn s.dom t := by rw [hL]; exact List.mem_cons_self _ _
      have hbm : b ∈ liveOn s.dom t := by
        rw [hL]; exact List.mem_cons_of_mem _ (List.mem_cons_self _ _)
      have haf := List.mem_filter.mp ha
      have hbf := List.mem_filter.mp hbm
      have hat : a.2.tmpl = t := by simpa using haf.2
      have hbt : b.2.tmpl = t := by simpa using hbf.2
      have h1 := htr a haf.1
      have h2 := htr b hbf.1
      rw [hat] at h1
      rw [hbt] at h2
      rw [h1] at h2
      have hab : a.1 = b.1 := Option.some.inj h2
      have hsub : ((liveOn s.dom t).map Prod.fst).Sublist (s.dom.map Prod.fst) :=
        List.Sublist.map _ (List.filter_sublist _)
      have hndL : ((liveOn s.dom t).map Prod.fst).Nodup := hnd.sublist hsub
      rw [hL] at hndL
      simp only [List.map_cons, List.nodup_cons] at hndL
      exact hndL.1 (by rw [hab]; exact List.mem_cons_self _ _)

theorem liveOn_cons_of_eq (n : Nat) (L : Listener) (dom : List (Nat × Listener))
    (t : Nat) (h : L.tmpl = t) :
    liveOn ((n, L) :: dom) t = (n, L) :: liveOn dom t := by
  simp [liveOn, List.filter_cons, h]

theorem mdInv_liveOn_after_render (s : MdState) (c : ICell) (t : Nat) (h : MdInv s) :
    ∀ p ∈ liveOn (mdRenderElement s c t).1.dom t, p.2.cell = c := by
  obtain ⟨hb, hnd, htr⟩ := h
  intro p hp
  unfold mdRenderElement at hp
  cases hal : alookup t s.disposables with
  | some lid =>
    rw [hal] at hp
    rw [liveOn_cons_of_eq _ _ _ _ rfl] at hp
    rcases List.mem_cons.mp hp with hp | hp
    · subst hp; rfl
    · exfalso
      have hmem := List.mem_of_mem_filter (List.mem_filter.mp hp).1
      have hpt : p.2.tmpl = t := by
        have := (List.mem_filter.mp hp).2
        simpa using this
      have hne_lid : p.1 ≠ lid := by
        have := (List.mem_filter.mp (List.mem_filter.mp hp).1).2
        simpa using this
      have htrp := htr p hmem
      rw [hpt, hal] at htrp
      exact hne_lid (Option.some.inj htrp).symm
  | none =>
    rw [hal] at hp
    rw [liveOn_cons_of_eq _ _ _ _ rfl] at hp
    rcases List.mem_cons.mp hp with hp | hp
    · subst hp; rfl
    · exfalso
      have hmem := (List.mem_filter.mp hp).1
      have hpt : p.2.tmpl = t := by
        have := (List.mem_filter.mp hp).2
        simpa using this
      have htrp := htr p hmem
      rw [hpt, hal] at htrp
      cases htrp

theorem liveOn_filter_ne (domL : List (Nat × Listener)) (lid t : Nat) :
    liveOn (domL.filter (fun p => p.1 ≠ lid)) t
      = (liveOn domL t).filter (fun p => p.1 ≠ lid) := by
  unfold liveOn
  rw [List.filter_filter, List.filter_filter]
  congr 1
  funext a
  exact Bool.and_comm _ _

/-- C5 amended: the markdown renderer disposes the previous listener of a row
template before attaching a new one, so after any sequence of `renderElement`
calls each row has at most one live listener, and after re-populating a row
with a cell every listener live on that row shows the menu for that cell.
The code renderer only attains this discipline when `disposeElement` is
called for the previous occupant before the template is re-populated: in that
case exactly one listener remains on the row, bound to the new cell. -/
theorem C5_amended_listener_discipline :
    (∀ evs t, (liveOn (mdRun evs).dom t).length ≤ 1) ∧
    (∀ evs c t, ∀ p ∈ liveOn (mdRun (evs ++ [(c, t)])).dom t, p.2.cell = c) ∧
    (∀ (s : CodeState) (c1 c2 : ICell) (lid t index clientWidth now : Nat),
      liveOn s.dom t = [(lid, ⟨t, c1⟩)] →
      alookup c1 s.disposables = some lid →
      (liveOn (codeRenderElement (codeDisposeElement s c1) c2 index t
          clientWidth now).1.dom t).map (fun p => p.2.cell) = [c2]) := by
  refine ⟨?_, ?_, ?_⟩
  · intro evs t
    exact mdInv_liveOn_le_one _ (mdInv_run evs) t
  · intro evs c t p hp
    have hstep : mdRun (evs ++ [(c, t)]) = (mdRenderElement (mdRun evs) c t).1 := by
      simp [mdRun, List.foldl_append]
    rw [hstep] at hp
    exact mdInv_liveOn_after_render _ c t (mdInv_run evs) p hp
  · intro s c1 c2 lid t index clientWidth now hlive hmap
    have hdom : (codeDisposeElement s c1).dom = s.dom.filter (fun p => p.1 ≠ lid) := by
      unfold codeDisposeElement
      rw [hmap]
    have e2 : (codeRenderElement (codeDisposeElement s c1) c2 index t
          clientWidth now).1.dom
        = ((codeDisposeElement s c1).next, (⟨t, c2⟩ : Listener))
            :: (codeDisposeElement s c1).dom := rfl
    rw [e2, liveOn_cons_of_eq _ _ _ _ rfl, hdom, liveOn_filter_ne, hlive]
    simp

theorem C5_amended_listener_discipline_witness :
    (liveOn (mdRun [((⟨0, "markdown", ["a"]⟩ : ICell), 0),
        ((⟨1, "markdown", ["b"]⟩ : ICell), 0)]).dom 0).length ≤ 1 ∧
    ((1, (⟨0, ⟨1, "markdown", ["b"]⟩⟩ : Listener)) : Nat × Listener).2.cell
      = (⟨1, "markdown", ["b"]⟩ : ICell) ∧
    (liveOn (codeRenderElement
        (codeDisposeElement
          (⟨[((⟨2, "code", ["x"]⟩ : ICell), 5)],
            [(5, ⟨0, ⟨2, "code", ["x"]⟩⟩)], 6⟩ : CodeState)
          ⟨2, "code", ["x"]⟩)
        ⟨3, "code", ["y"]⟩ 0 0 100 0).1.dom 0).map (fun p => p.2.cell)
      = [(⟨3, "code", ["y"]⟩ : ICell)] :=
  ⟨C5_amended_listener_discipline.1
     [((⟨0, "markdown", ["a"]⟩ : ICell), 0), ((⟨1, "markdown", ["b"]⟩ : ICell), 0)] 0,
   C5_amended_listener_discipline.2.1
     [((⟨0, "markdown", ["a"]⟩ : ICell), 0)] (⟨1, "markdown", ["b"]⟩ : ICell) 0
     (1, ⟨0, ⟨1, "markdown", ["b"]⟩⟩) (by decide),
   C5_amended_listener_discipline.2.2
     (⟨[((⟨2, "code", ["x"]⟩ : ICell), 5)], [(5, ⟨0, ⟨2, "code", ["x"]⟩⟩)], 6⟩ : CodeState)
     ⟨2, "code", ["x"]⟩ ⟨3, "code", ["y"]⟩ 5 0 0 100 0 (by decide) (by decide)⟩

end NotebookEditorSpec
